import Mathlib

/-!
Verification development for the notion-to-github converter.

The definitions below are a shallow embedding of the repository's four
source files:
  * `converter.ts` (`NotionToGitHubConverter`): orchestration, filename
    derivation, configuration validation;
  * the Notion service (`NotionService`): block-to-markdown rendering and
    MDX assembly;
  * the GitHub service (`GitHubService`): the tree/commit/ref batch push
    protocol and the single-file create-or-update path;
  * the express entry point (out of scope except for types).

JavaScript strings are modelled as Lean `String` (a list of characters);
all string transformations from the source are re-implemented with
structural recursion over `List Char` so that every definition is
executable and kernel-reducible.  External HTTP collaborators (Notion,
GitHub, gray-matter) are modelled as explicit state plus boolean oracles
deciding which calls succeed, mirroring the try/catch structure of the
source.
-/

/-! ## Character classes used by `generateFileName`

`generateFileName` in `converter.ts` is
`title.toLowerCase().replace(/[^a-z0-9\s-]/g, '').replace(/\s+/g, '-')
 .replace [hyphen-run regex] with '-'.trim()`.
`isJsWs` models the ASCII part of the JavaScript `\s` class and of
`String.prototype.trim` (the two coincide on ASCII input).
-/

def isJsWs (c : Char) : Bool :=
  c.toNat = 32 || c.toNat = 9 || c.toNat = 10 || c.toNat = 13 || c.toNat = 11 || c.toNat = 12

def isLowerAz (c : Char) : Bool :=
  97 ≤ c.toNat && c.toNat ≤ 122

def isDigit09 (c : Char) : Bool :=
  48 ≤ c.toNat && c.toNat ≤ 57

def isHyphen (c : Char) : Bool :=
  c.toNat = 45

/-- The character class `[a-z0-9\s-]` kept by the strip step. -/
def keepChar (c : Char) : Bool :=
  isLowerAz c || isDigit09 c || isJsWs c || isHyphen c

/-- Characters allowed in a finished slug: lowercase letters, digits, hyphen. -/
def outChar (c : Char) : Bool :=
  isLowerAz c || isDigit09 c || isHyphen c

/-- ASCII lowercasing, modelling `String.prototype.toLowerCase`. -/
def lowerChar (c : Char) : Char :=
  if 65 ≤ c.toNat && c.toNat ≤ 90 then Char.ofNat (c.toNat + 32) else c

/-! ## The `generateFileName` pipeline (from `converter.ts`) -/

/-- `.replace(/[^a-z0-9\s-]/g, '')`: strip every character outside the class. -/
def stripSpecial (l : List Char) : List Char :=
  l.filter keepChar

/-- Worker for `.replace(/\s+/g, '-')`: the flag records whether the previous
character belonged to a whitespace run already replaced by a hyphen. -/
def wsAux : Bool → List Char → List Char
  | _, [] => []
  | prevWs, c :: cs =>
    if isJsWs c then
      if prevWs then wsAux true cs else '-' :: wsAux true cs
    else c :: wsAux false cs

/-- `.replace(/\s+/g, '-')`: each maximal whitespace run becomes one hyphen. -/
def wsRunsToHyphen (l : List Char) : List Char :=
  wsAux false l

/-- Worker for `.replace [hyphen-run regex] with '-'`. -/
def hyAux : Bool → List Char → List Char
  | _, [] => []
  | prevHy, c :: cs =>
    if isHyphen c then
      if prevHy then hyAux true cs else '-' :: hyAux true cs
    else c :: hyAux false cs

/-- `.replace [hyphen-run regex] with '-'`: each maximal hyphen run becomes one hyphen. -/
def collapseHyphens (l : List Char) : List Char :=
  hyAux false l

/-- `String.prototype.trim`: drop leading and trailing whitespace (and only
whitespace; hyphens are not touched). -/
def jsTrim (l : List Char) : List Char :=
  ((l.dropWhile isJsWs).reverse.dropWhile isJsWs).reverse

/-- The character-level body of `generateFileName`, stage for stage in the
order of the source: lowercase, strip, whitespace runs to `-`, collapse `-`
runs, trim whitespace. -/
def slugChars (l : List Char) : List Char :=
  jsTrim (collapseHyphens (wsRunsToHyphen (stripSpecial (l.map lowerChar))))

/-- `NotionToGitHubConverter.generateFileName` from `converter.ts`. -/
def generateFileName (title : String) : String :=
  String.mk (slugChars title.data)

/-- Drop leading and trailing hyphens. -/
def hyphenTrim (l : List Char) : List Char :=
  ((l.dropWhile isHyphen).reverse.dropWhile isHyphen).reverse

/-- Modelled from the spec's words, for comparison with `generateFileName`:
the spec asks for leading/trailing HYPHENS to be trimmed as the final stage
("trim leading/trailing hyphens"), where the code trims whitespace. -/
def specDerive (title : String) : String :=
  String.mk (hyphenTrim (collapseHyphens (wsRunsToHyphen (stripSpecial (title.data.map lowerChar)))))

/-- `true` when the list has no two adjacent hyphens. -/
def noDoubleHyphen : List Char → Bool
  | [] => true
  | [_] => true
  | a :: b :: rest => !(isHyphen a && isHyphen b) && noDoubleHyphen (b :: rest)

/-- `true` when the list does not start with a hyphen. -/
def headNotHyphen : List Char → Bool
  | [] => true
  | c :: _ => !isHyphen c

/-! ### Lemmas about the slug pipeline -/

theorem outChar_not_ws {c : Char} (h : outChar c = true) : isJsWs c = false := by
  simp only [outChar, isLowerAz, isDigit09, isHyphen, Bool.or_eq_true,
    Bool.and_eq_true, decide_eq_true_eq] at h
  simp only [isJsWs, Bool.or_eq_false_iff, decide_eq_false_iff_not]
  omega

theorem outChar_lowerChar {c : Char} (h : outChar c = true) : lowerChar c = c := by
  simp only [outChar, isLowerAz, isDigit09, isHyphen, Bool.or_eq_true,
    Bool.and_eq_true, decide_eq_true_eq] at h
  simp only [lowerChar, Bool.and_eq_true, decide_eq_true_eq]
  rw [if_neg]
  omega

theorem outChar_keep {c : Char} (h : outChar c = true) : keepChar c = true := by
  simp only [outChar, Bool.or_eq_true] at h
  simp only [keepChar, Bool.or_eq_true]
  tauto

theorem hyphenChar {c : Char} (h : isHyphen c = true) : c = '-' := by
  simp only [isHyphen, decide_eq_true_eq] at h
  exact Char.eq_of_val_eq (UInt32.ext h)

theorem map_eq_self_of_id {f : Char → Char} {l : List Char} (h : ∀ c ∈ l, f c = c) :
    l.map f = l := by
  induction l with
  | nil => rfl
  | cons a as ih =>
    simp only [List.map_cons]
    rw [h a (by simp), ih (fun c hc => h c (by simp [hc]))]

theorem wsAux_mem_of_keep {l : List Char} (hl : ∀ c ∈ l, keepChar c = true) :
    ∀ b, ∀ c ∈ wsAux b l, outChar c = true := by
  induction l with
  | nil => intro b c hc; simp [wsAux] at hc
  | cons a as ih =>
    intro b c hc
    have ha : keepChar a = true := hl a (by simp)
    have has : ∀ x ∈ as, keepChar x = true := fun x hx => hl x (by simp [hx])
    by_cases hws : isJsWs a = true
    · cases b with
      | true =>
        simp only [wsAux, hws, if_true] at hc
        exact ih has true c hc
      | false =>
        simp [wsAux, hws] at hc
        rcases hc with rfl | hc
        · simp [outChar, isHyphen]
        · exact ih has true c hc
    · simp [wsAux, hws] at hc
      rcases hc with rfl | hc
      · simp only [keepChar, Bool.or_eq_true] at ha
        simp only [outChar, Bool.or_eq_true]
        rcases ha with ((h1 | h2) | h3) | h4
        · tauto
        · tauto
        · exact absurd h3 hws
        · tauto
      · exact ih has false c hc

theorem hyAux_mem {l : List Char} (hl : ∀ c ∈ l, outChar c = true) :
    ∀ b, ∀ c ∈ hyAux b l, outChar c = true := by
  induction l with
  | nil => intro b c hc; simp [hyAux] at hc
  | cons a as ih =>
    intro b c hc
    have ha : outChar a = true := hl a (by simp)
    have has : ∀ x ∈ as, outChar x = true := fun x hx => hl x (by simp [hx])
    by_cases hhy : isHyphen a = true
    · cases b with
      | true =>
        simp only [hyAux, hhy, if_true] at hc
        exact ih has true c hc
      | false =>
        simp [hyAux, hhy] at hc
        rcases hc with rfl | hc
        · simp [outChar, isHyphen]
        · exact ih has true c hc
    · simp [hyAux, hhy] at hc
      rcases hc with rfl | hc
      · exact ha
      · exact ih has false c hc

theorem hyAux_noDouble (l : List Char) :
    ∀ b, noDoubleHyphen (hyAux b l) = true ∧ headNotHyphen (hyAux true l) = true := by
  induction l with
  | nil => intro b; simp [hyAux, noDoubleHyphen, headNotHyphen]
  | cons a as ih =>
    intro b
    constructor
    · by_cases hhy : isHyphen a = true
      · cases b with
        | true => simpa [hyAux, hhy] using (ih true).1
        | false =>
          simp only [hyAux, hhy, if_true]
          have h1 := (ih true).1
          have h2 := (ih true).2
          cases hx : hyAux true as with
          | nil => simp [noDoubleHyphen]
          | cons y ys =>
            rw [hx] at h1 h2
            simp only [headNotHyphen] at h2
            simp only [noDoubleHyphen, Bool.and_eq_true]
            exact ⟨by simp [h2], h1⟩
      · simp only [hyAux, hhy, if_false, Bool.false_eq_true]
        have h1 := (ih false).1
        cases hx : hyAux false as with
        | nil => simp [noDoubleHyphen]
        | cons y ys =>
          rw [hx] at h1
          simp only [noDoubleHyphen, Bool.and_eq_true]
          refine ⟨?_, h1⟩
          simp only [Bool.not_eq_true'] at hhy ⊢
          simp [hhy]
    · by_cases hhy : isHyphen a = true
      · simpa [hyAux, hhy] using (ih true).2
      · simp only [hyAux, hhy, if_false, Bool.false_eq_true]
        simp only [headNotHyphen, Bool.not_eq_true']
        simpa using hhy

theorem dropWhile_eq_self_of_none {p : Char → Bool} {l : List Char}
    (h : ∀ c ∈ l, p c = false) : l.dropWhile p = l := by
  cases l with
  | nil => rfl
  | cons a as =>
    rw [List.dropWhile_cons_of_neg]
    simp [h a (by simp)]

theorem jsTrim_eq_self {l : List Char} (h : ∀ c ∈ l, isJsWs c = false) :
    jsTrim l = l := by
  unfold jsTrim
  rw [dropWhile_eq_self_of_none h,
      dropWhile_eq_self_of_none (fun c hc => h c (List.mem_reverse.mp hc)),
      List.reverse_reverse]

theorem wsAux_eq_self {l : List Char} (h : ∀ c ∈ l, isJsWs c = false) :
    ∀ b, wsAux b l = l := by
  induction l with
  | nil => intro b; rfl
  | cons a as ih =>
    intro b
    have ha : isJsWs a = false := h a (by simp)
    simp only [wsAux, ha, if_false, Bool.false_eq_true]
    rw [ih (fun c hc => h c (by simp [hc]))]

theorem hyAux_eq_self (l : List Char) :
    ∀ b, noDoubleHyphen l = true → (b = true → headNotHyphen l = true) →
      hyAux b l = l := by
  induction l with
  | nil => intro b _ _; rfl
  | cons a as ih =>
    intro b hnd hhead
    have hndtail : noDoubleHyphen as = true := by
      cases as with
      | nil => rfl
      | cons y ys =>
        simp only [noDoubleHyphen, Bool.and_eq_true] at hnd
        exact hnd.2
    by_cases hhy : isHyphen a = true
    · cases b with
      | true =>
        exfalso
        have := hhead rfl
        simp only [headNotHyphen, Bool.not_eq_true'] at this
        rw [hhy] at this; exact absurd this (by simp)
      | false =>
        simp only [hyAux, hhy, if_true]
        rw [if_neg (by simp)]
        rw [hyphenChar hhy]
        congr 1
        apply ih true hndtail
        intro _
        cases as with
        | nil => rfl
        | cons y ys =>
          simp only [noDoubleHyphen, Bool.and_eq_true] at hnd
          have h1 := hnd.1
          simp only [hhy, Bool.true_and, Bool.not_eq_true'] at h1
          simp [headNotHyphen, h1]
    · simp only [hyAux]
      rw [if_neg (by simp [hhy])]
      congr 1
      exact ih false hndtail (by intro h; exact absurd h (by simp))

theorem filter_eq_self_of_keep {l : List Char} (h : ∀ c ∈ l, keepChar c = true) :
    stripSpecial l = l := by
  unfold stripSpecial
  exact List.filter_eq_self.mpr h

/-- Every character of a finished slug is a lowercase letter, a digit or a
hyphen, and no two hyphens are adjacent. -/
theorem slugChars_invariant (l : List Char) :
    (∀ c ∈ slugChars l, outChar c = true) ∧ noDoubleHyphen (slugChars l) = true := by
  have hstrip : ∀ c ∈ stripSpecial (l.map lowerChar), keepChar c = true := by
    intro c hc
    exact List.of_mem_filter hc
  have hws : ∀ c ∈ wsRunsToHyphen (stripSpecial (l.map lowerChar)), outChar c = true :=
    wsAux_mem_of_keep hstrip false
  have hhy : ∀ c ∈ collapseHyphens (wsRunsToHyphen (stripSpecial (l.map lowerChar))),
      outChar c = true := hyAux_mem hws false
  have hnd : noDoubleHyphen (collapseHyphens (wsRunsToHyphen (stripSpecial (l.map lowerChar)))) =
      true := (hyAux_noDouble _ false).1
  have htrim : jsTrim (collapseHyphens (wsRunsToHyphen (stripSpecial (l.map lowerChar)))) =
      collapseHyphens (wsRunsToHyphen (stripSpecial (l.map lowerChar))) :=
    jsTrim_eq_self (fun c hc => outChar_not_ws (hhy c hc))
  constructor
  · intro c hc
    unfold slugChars at hc
    rw [htrim] at hc
    exact hhy c hc
  · unfold slugChars
    rw [htrim]
    exact hnd

/-- Applying the pipeline to a string that already satisfies the slug
invariants returns it unchanged. -/
theorem slugChars_fixed {l : List Char}
    (hall : ∀ c ∈ l, outChar c = true) (hnd : noDoubleHyphen l = true) :
    slugChars l = l := by
  have hmap : l.map lowerChar = l :=
    map_eq_self_of_id (fun c hc => outChar_lowerChar (hall c hc))
  unfold slugChars
  rw [hmap, filter_eq_self_of_keep (fun c hc => outChar_keep (hall c hc))]
  unfold wsRunsToHyphen
  rw [wsAux_eq_self (fun c hc => outChar_not_ws (hall c hc)) false]
  unfold collapseHyphens
  rw [hyAux_eq_self l false hnd (by intro h; exact absurd h (by simp))]
  exact jsTrim_eq_self (fun c hc => outChar_not_ws (hall c hc))

/-! ### Claims C5, C6, C10 -/

/-- C5 (counterexample): the claim says leading/trailing hyphens are trimmed,
but the source's final `.trim()` trims whitespace (of which none is left), so
the leading hyphen produced from the leading space of `" Hello"` survives:
`generateFileName " Hello" = "-hello"`, while the spec's own derivation (with
hyphen trimming) yields `"hello"`. -/
theorem generateFileName_trim_cex :
    generateFileName " Hello" = "-hello" ∧ specDerive " Hello" = "hello" ∧
      generateFileName " Hello" ≠ specDerive " Hello" := by
  refine ⟨by decide, by decide, by decide⟩

/-- C5 (amended): `generateFileName` lowercases the title, strips every
character outside `[a-z0-9\s-]`, collapses whitespace runs to one hyphen and
hyphen runs to one hyphen, and finally trims whitespace (a no-op, so
leading/trailing hyphens are NOT removed); every output character is a
lowercase letter, digit or hyphen with no adjacent hyphen pair, and the title
"Hello, World!" derives to "hello-world". -/
theorem generateFileName_amended (t : String) :
    (∀ c ∈ (generateFileName t).data, outChar c = true) ∧
      noDoubleHyphen (generateFileName t).data = true ∧
      generateFileName "Hello, World!" = "hello-world" := by
  refine ⟨?_, ?_, by decide⟩
  · intro c hc
    exact (slugChars_invariant t.data).1 c hc
  · exact (slugChars_invariant t.data).2

/-- C6: filename derivation is idempotent — deriving an already-derived slug
returns the same slug. -/
theorem generateFileName_idempotent (t : String) :
    generateFileName (generateFileName t) = generateFileName t := by
  unfold generateFileName
  congr 1
  have h := slugChars_invariant t.data
  exact slugChars_fixed h.1 h.2

/-! ## Rich text rendering (`NotionService.renderRichText`)

A `RichSpan` models one element of a Notion rich-text array: the
`annotations` object's four style flags are inlined as booleans, `href` is
`none` for the JavaScript `null`.
-/

structure RichSpan where
  plain_text : String
  bold : Bool
  italic : Bool
  strikethrough : Bool
  code : Bool
  href : Option String
deriving DecidableEq

/-- JavaScript truthiness of `text.href : string | null`. -/
def hrefTruthy : Option String → Bool
  | none => false
  | some s => !(s == "")

/-- The per-span body of `renderRichText`: the source reassigns `content`
once per enabled annotation, in the fixed order bold, italic, strikethrough,
code, and finally wraps in a link when `text.href` is truthy. -/
def renderRichTextItem (t : RichSpan) : String :=
  let c0 := t.plain_text
  let c1 := if t.bold then "**" ++ c0 ++ "**" else c0
  let c2 := if t.italic then "*" ++ c1 ++ "*" else c1
  let c3 := if t.strikethrough then "~~" ++ c2 ++ "~~" else c2
  let c4 := if t.code then "`" ++ c3 ++ "`" else c3
  if hrefTruthy t.href then "[" ++ c4 ++ "](" ++ (t.href.getD "") ++ ")" else c4

/-- `renderRichText`: `richText.map(...).join('')` — spans concatenate with
no separator. -/
def renderRichText : List RichSpan → String
  | [] => ""
  | t :: ts => renderRichTextItem t ++ renderRichText ts

/-- Wrapping combinators naming the four style markers and the link wrap,
used to state the nesting order of `renderRichTextItem`. -/
def boldWrap (b : Bool) (s : String) : String := if b then "**" ++ s ++ "**" else s

def italicWrap (b : Bool) (s : String) : String := if b then "*" ++ s ++ "*" else s

def strikeWrap (b : Bool) (s : String) : String := if b then "~~" ++ s ++ "~~" else s

def codeWrap (b : Bool) (s : String) : String := if b then "`" ++ s ++ "`" else s

/-- The style markers applied to a span's text in the source's fixed order,
before any link wrap. -/
def styledText (t : RichSpan) : String :=
  codeWrap t.code (strikeWrap t.strikethrough (italicWrap t.italic (boldWrap t.bold t.plain_text)))

/-! ## Block rendering (`NotionService.convertBlockToMarkdown`) -/

/-- Image payload: `image.type === 'external' ? image.external.url : image.file.url`. -/
inductive ImageSource where
  | external (url : String)
  | file (url : String)
deriving DecidableEq

def imageUrl : ImageSource → String
  | .external u => u
  | .file u => u

/-- A Notion block, tagged as in the source's `switch (block.type)`.  The
`unknown` variant carries the optional rich-text list read by the default
branch (`block[type]?.rich_text || []`): `none` models a block whose payload
has no rich-text array. -/
inductive Block where
  | paragraph (rich_text : List RichSpan)
  | heading1 (rich_text : List RichSpan)
  | heading2 (rich_text : List RichSpan)
  | heading3 (rich_text : List RichSpan)
  | bulletedListItem (rich_text : List RichSpan)
  | numberedListItem (rich_text : List RichSpan)
  | code (language : Option String) (rich_text : List RichSpan)
  | quote (rich_text : List RichSpan)
  | image (caption : Option (List RichSpan)) (source : ImageSource)
  | divider
  | unknown (tag : String) (rich_text : Option (List RichSpan))
deriving DecidableEq

/-- `renderHeading`: `'#'.repeat(level) + ' ' + renderRichText(...)`. -/
def renderHeading (rich : List RichSpan) (level : Nat) : String :=
  String.mk (List.replicate level '#') ++ " " ++ renderRichText rich

/-- The `content` computed by the `switch` in `convertBlockToMarkdown`. -/
def blockContent : Block → String
  | .paragraph rich => renderRichText rich
  | .heading1 rich => renderHeading rich 1
  | .heading2 rich => renderHeading rich 2
  | .heading3 rich => renderHeading rich 3
  | .bulletedListItem rich => "- " ++ renderRichText rich
  | .numberedListItem rich => "1. " ++ renderRichText rich
  | .code lang rich => "```" ++ lang.getD "" ++ "\n" ++ renderRichText rich ++ "\n```"
  | .quote rich => "> " ++ renderRichText rich
  | .image caption src =>
    "![" ++ (match caption with | some cs => renderRichText cs | none => "") ++ "](" ++ imageUrl src ++ ")"
  | .divider => "\n---\n\n"
  | .unknown _ rich => renderRichText (rich.getD [])

/-- `convertBlockToMarkdown`: `return content + '\n\n'`. -/
def convertBlockToMarkdown (b : Block) : String :=
  blockContent b ++ "\n\n"

/-- `convertBlocksToMarkdown`: the accumulation loop `markdown += ...`. -/
def convertBlocksToMarkdown : List Block → String
  | [] => ""
  | b :: bs => convertBlockToMarkdown b ++ convertBlocksToMarkdown bs

/-- Number of newline characters at the very end of a string. -/
def trailingNlCount (s : String) : Nat :=
  (s.data.reverse.takeWhile (fun c => c = '\n')).length

/-- A rich-text span with the given text and no styling and no link. -/
def plainSpan (t : String) : RichSpan :=
  { plain_text := t, bold := false, italic := false, strikethrough := false,
    code := false, href := none }

/-- Plain concatenation of a list of strings, with no separator. -/
def concatStrings : List String → String
  | [] => ""
  | s :: rest => s ++ concatStrings rest

/-! ### Lemmas about block rendering -/

theorem trailingNlCount_append_two_nl (s : String) :
    trailingNlCount (s ++ "\n\n") = trailingNlCount s + 2 := by
  have hdata : (s ++ "\n\n").data = s.data ++ ['\n', '\n'] := rfl
  simp only [trailingNlCount, hdata, List.reverse_append]
  simp [List.takeWhile]

theorem renderRichTextItem_plain (t : String) : renderRichTextItem (plainSpan t) = t := by
  simp [renderRichTextItem, plainSpan, hrefTruthy]

/-! ### Claim C2 -/

/-- C2: `renderRichText` applies the style markers in the fixed order bold,
italic, strikethrough, inline-code (bold innermost, code outermost), wraps
the styled text in `[text](url)` when a (non-empty) link target is present,
and concatenates spans with no separator; a span with the bold, italic and
inline-code flags renders as a backtick, then three asterisks, the text,
three asterisks and a closing backtick. -/
theorem renderRichText_order (t : RichSpan) (xs ys : List RichSpan) (txt url : String)
    (hurl : url ≠ "") :
    (t.href = none → renderRichTextItem t = styledText t) ∧
      (t.href = some url → renderRichTextItem t = "[" ++ styledText t ++ "](" ++ url ++ ")") ∧
      renderRichText (xs ++ ys) = renderRichText xs ++ renderRichText ys ∧
      renderRichTextItem
          { plain_text := txt, bold := true, italic := true, strikethrough := false,
            code := true, href := none } =
        "`***" ++ txt ++ "***`" := by
  refine ⟨?_, ?_, ?_, ?_⟩
  · intro h
    simp [renderRichTextItem, styledText, h, hrefTruthy, boldWrap, italicWrap, strikeWrap, codeWrap]
  · intro h
    simp only [renderRichTextItem, styledText, h, hrefTruthy, boldWrap, italicWrap,
      strikeWrap, codeWrap]
    have hb : (url == "") = false := beq_eq_false_iff_ne.mpr hurl
    rw [if_pos]
    · rfl
    · rw [hb]; rfl
  · induction xs with
    | nil => simp [renderRichText]
    | cons a as ih =>
      simp [renderRichText, ih, String.append_assoc]
  · show "`" ++ ("*" ++ ("**" ++ txt ++ "**") ++ "*") ++ "`" = "`***" ++ txt ++ "***`"
    simp only [String.append_assoc]
    rfl

/-- Witness for C2 at a concrete span and link. -/
theorem renderRichText_order_witness :
    renderRichTextItem
        { plain_text := "text", bold := true, italic := true, strikethrough := false,
          code := true, href := none } =
      "`***text***`" ∧
      renderRichTextItem
          { plain_text := "x", bold := false, italic := false, strikethrough := false,
            code := false, href := some "https://e.com" } =
        "[" ++ styledText
          { plain_text := "x", bold := false, italic := false, strikethrough := false,
            code := false, href := some "https://e.com" } ++ "](" ++ "https://e.com" ++ ")" :=
  ⟨(renderRichText_order (plainSpan "q") [] [] "text" "https://e.com" (by decide)).2.2.2,
   ((renderRichText_order
      { plain_text := "x", bold := false, italic := false, strikethrough := false,
        code := false, href := some "https://e.com" } [] [] "text" "https://e.com"
      (by decide)).2.1) rfl⟩

/-! ### Claim C3 -/

/-- C3 (counterexample): the divider block's rendered output ends with four
newline characters, not exactly two — its own content `"\n---\n\n"` already
ends with a blank line before the uniform `"\n\n"` terminator is appended. -/
theorem block_two_newlines_cex :
    convertBlockToMarkdown Block.divider = "\n---\n\n\n\n" ∧
      trailingNlCount (convertBlockToMarkdown Block.divider) = 4 ∧
      ¬ trailingNlCount (convertBlockToMarkdown Block.divider) = 2 := by
  refine ⟨rfl, by decide, by decide⟩

/-- C3 (amended): every rendered block's output is terminated by the
two-character suffix of two newlines (so at least one blank line follows each
block), and the trailing newline count is exactly two precisely when the
block's own content does not already end in a newline — which fails for the
divider, whose output carries four trailing newlines. -/
theorem block_terminator_amended (b : Block) :
    2 ≤ trailingNlCount (convertBlockToMarkdown b) ∧
      (trailingNlCount (blockContent b) = 0 → trailingNlCount (convertBlockToMarkdown b) = 2) := by
  have h := trailingNlCount_append_two_nl (blockContent b)
  unfold convertBlockToMarkdown
  constructor
  · omega
  · intro h0
    omega

/-- Witness for C3's amended theorem at a concrete paragraph block. -/
theorem block_terminator_amended_witness :
    2 ≤ trailingNlCount (convertBlockToMarkdown (Block.paragraph [plainSpan "Intro"])) ∧
      trailingNlCount (convertBlockToMarkdown (Block.paragraph [plainSpan "Intro"])) = 2 :=
  ⟨(block_terminator_amended (Block.paragraph [plainSpan "Intro"])).1,
   (block_terminator_amended (Block.paragraph [plainSpan "Intro"])).2 (by decide)⟩

/-! ### Claim C9 -/

/-- C9: block rendering is a total function over every variant including
unknown tags: an unknown block with a rich-text list renders as the plain
concatenation of its spans (no block-level wrapping) plus the terminator,
an unknown block with no rich-text list contributes empty text, and for
unstyled spans the fallback is literally the concatenation of their texts. -/
theorem render_total_unknown (tag : String) (spans : List RichSpan) (texts : List String)
    (bs : List Block) (b : Block) :
    convertBlockToMarkdown (Block.unknown tag (some spans)) = renderRichText spans ++ "\n\n" ∧
      blockContent (Block.unknown tag none) = "" ∧
      convertBlockToMarkdown (Block.unknown tag none) = "\n\n" ∧
      renderRichText (texts.map plainSpan) = concatStrings texts ∧
      convertBlocksToMarkdown (b :: bs) = convertBlockToMarkdown b ++ convertBlocksToMarkdown bs := by
  refine ⟨rfl, rfl, rfl, ?_, rfl⟩
  induction texts with
  | nil => rfl
  | cons a as ih =>
    simp only [List.map_cons, renderRichText, concatStrings, ih, renderRichTextItem_plain]

/-! ## Page model and MDX assembly (`NotionService.convertToMDX`) -/

/-- A Notion page property value as inspected by `extractTitle`: either a
property of type `title` carrying the `plain_text` of its runs, or anything
else. -/
inductive PropValue where
  | titleProp (runs : List String)
  | other
deriving DecidableEq

/-- `NotionPage` from `types.ts` (the `Record<string, any>` property bag is
modelled as an association list of `PropValue`). -/
structure NotionPage where
  id : String
  title : String
  content : String
  properties : List (String × PropValue)
  lastEditedTime : String
  url : String
deriving DecidableEq

/-- `NotionService.extractTitle`: the first property whose value has type
`title` and a non-empty run list yields its first run's `plain_text`,
otherwise `"Untitled"`. -/
def extractTitle : List (String × PropValue) → String
  | [] => "Untitled"
  | (_, PropValue.titleProp (t :: _)) :: _ => t
  | _ :: rest => extractTitle rest

def takeUntilT : List Char → List Char
  | [] => []
  | c :: cs => if c = 'T' then [] else c :: takeUntilT cs

/-- Models `new Date(s).toISOString().split('T')[0]` for timestamps already
in normalized UTC ISO-8601 form — which Notion's `last_edited_time` always
is, so parse-then-reserialize is the identity and the result is the text
before the `'T'`. -/
def isoDatePart (s : String) : String :=
  String.mk (takeUntilT s.data)

def takeUntilBlank : List Char → List Char
  | '\n' :: '\n' :: _ => []
  | c :: cs => c :: takeUntilBlank cs
  | [] => []

/-- `page.content.split('\n\n')[0] || ''`: the text before the first blank
line (the split's first element always exists; `|| ''` maps `""` to itself). -/
def firstParagraph (content : String) : String :=
  String.mk (takeUntilBlank content.data)

/-- The `summary` computed in `convertToMDX`. -/
def summaryOf (content : String) : String :=
  if 150 < (firstParagraph content).data.length then
    String.mk ((firstParagraph content).data.take 150) ++ "..."
  else if firstParagraph content == "" then "No summary available"
  else firstParagraph content

/-! ### The YAML scalar model (gray-matter's js-yaml engine)

`matter.stringify('', data)` delegates to js-yaml's `safeDump`.  For a
single-line ASCII scalar, js-yaml emits the string plainly unless plain
style would be misread: the first character is a YAML indicator, some
character is outside the plain-safe set (which excludes the comma, the
square and curly brackets, the colon, the hash mark and every non-printable
character), the string has a trailing space, or implicit typing would
reinterpret it (null/boolean keywords, numbers, and the `YYYY-MM-DD`
timestamp shape of every `publishedAt` value).  Such scalars are emitted
single-quoted with inner quotes doubled.  (Scalars longer than the engine's
folding width are block-folded instead; the fields in this development's
statements stay far below that width, and line-based reasoning is guarded
by newline-freeness hypotheses.)
-/

/-- Printable ASCII. -/
def yamlPrintable (c : Char) : Bool :=
  32 ≤ c.toNat && c.toNat ≤ 126

/-- js-yaml's plain-safe character test: printable and not one of the
comma (44), square brackets (91, 93), curly brackets (123, 125), colon (58)
or hash mark (35). -/
def yamlPlainSafe (c : Char) : Bool :=
  yamlPrintable c &&
    !(c.toNat = 44 || c.toNat = 91 || c.toNat = 93 || c.toNat = 123 ||
      c.toNat = 125 || c.toNat = 58 || c.toNat = 35)

/-- js-yaml's plain-safe test for the first character: additionally excludes
the space (32) and the indicator characters minus (45), question mark (63),
ampersand (38), asterisk (42), exclamation mark (33), vertical bar (124),
greater-than (62), single quote (39), double quote (34), percent (37),
at sign (64) and the backtick (96). -/
def yamlPlainSafeFirst (c : Char) : Bool :=
  yamlPlainSafe c &&
    !(c.toNat = 32 || c.toNat = 45 || c.toNat = 63 || c.toNat = 38 ||
      c.toNat = 42 || c.toNat = 33 || c.toNat = 124 || c.toNat = 62 ||
      c.toNat = 39 || c.toNat = 34 || c.toNat = 37 || c.toNat = 64 ||
      c.toNat = 96)

/-- The null/boolean/merge/special-float keywords implicit typing resolves
in the safe schema (the minus-signed infinities begin with an indicator and
are quoted by the first-character test already). -/
def yamlKeyword (s : String) : Bool :=
  s == "~" || s == "null" || s == "Null" || s == "NULL" ||
    s == "true" || s == "True" || s == "TRUE" ||
    s == "false" || s == "False" || s == "FALSE" ||
    s == "<<" || s == ".inf" || s == ".Inf" || s == ".INF" ||
    s == "+.inf" || s == "+.Inf" || s == "+.INF" ||
    s == ".nan" || s == ".NaN" || s == ".NAN"

/-- The part after an `e`/`E`: an optional sign then at least one digit. -/
def yamlExpTail : List Char → Bool
  | [] => false
  | c :: r =>
    if c.toNat = 43 || c.toNat = 45 then !r.isEmpty && r.all isDigit09
    else (c :: r).all isDigit09

/-- After the decimal point: digits or underscores, then an optional
exponent. -/
def yamlFracTail : List Char → Bool
  | [] => true
  | c :: r =>
    if isDigit09 c || c.toNat = 95 then yamlFracTail r
    else if c.toNat = 101 || c.toNat = 69 then yamlExpTail r
    else false

/-- After the leading digit: digits or underscores, then an optional
fraction and exponent. -/
def yamlIntTail : List Char → Bool
  | [] => true
  | c :: r =>
    if isDigit09 c || c.toNat = 95 then yamlIntTail r
    else if c.toNat = 46 then yamlFracTail r
    else if c.toNat = 101 || c.toNat = 69 then yamlExpTail r
    else false

def yamlHexDigit (c : Char) : Bool :=
  isDigit09 c || (97 ≤ c.toNat && c.toNat ≤ 102) ||
    (65 ≤ c.toNat && c.toNat ≤ 70) || c.toNat = 95

/-- The unsigned body of a YAML 1.1 number: a decimal integer or float with
optional exponent, a leading-dot float, or a `0x`/`0o`/`0b` radix literal. -/
def yamlNumericCore : List Char → Bool
  | [] => false
  | c :: r =>
    if c.toNat = 46 then
      (match r with
        | d :: _ => isDigit09 d
        | [] => false) && yamlFracTail r
    else if isDigit09 c then
      if c.toNat = 48 then
        match r with
        | [] => true
        | x :: rest =>
          if x.toNat = 120 then !rest.isEmpty && rest.all yamlHexDigit
          else if x.toNat = 98 then
            !rest.isEmpty &&
              rest.all (fun d => d.toNat = 48 || d.toNat = 49 || d.toNat = 95)
          else if x.toNat = 111 then
            !rest.isEmpty &&
              rest.all (fun d => (48 ≤ d.toNat && d.toNat ≤ 55) || d.toNat = 95)
          else yamlIntTail (x :: rest)
      else yamlIntTail r
    else false

/-- A scalar implicit typing would read as a number (optional leading
sign). -/
def yamlNumericLike (s : String) : Bool :=
  match s.data with
  | [] => false
  | c :: r =>
    if c.toNat = 43 || c.toNat = 45 then yamlNumericCore r
    else yamlNumericCore (c :: r)

/-- The `YYYY-MM-DD` shape of js-yaml's timestamp type; its date-and-time
shapes all contain a colon and are quoted by the character test already. -/
def yamlDateLike (s : String) : Bool :=
  match s.data with
  | [y1, y2, y3, y4, h1, m1, m2, h2, d1, d2] =>
    isDigit09 y1 && isDigit09 y2 && isDigit09 y3 && isDigit09 y4 &&
      h1.toNat = 45 && isDigit09 m1 && isDigit09 m2 && h2.toNat = 45 &&
      isDigit09 d1 && isDigit09 d2
  | _ => false

/-- A trailing space forces quoting (plain scalars shed trailing spaces). -/
def yamlTrailingSpace (s : String) : Bool :=
  match s.data.getLast? with
  | some c => c.toNat = 32
  | none => false

/-- Whether js-yaml writes the scalar single-quoted rather than plain (the
empty string is quoted: its defaulted head, a space, fails the first-character
test). -/
def yamlNeedsQuote (s : String) : Bool :=
  !yamlPlainSafeFirst (s.data.headD ' ') || !s.data.all yamlPlainSafe ||
    yamlTrailingSpace s || yamlKeyword s || yamlNumericLike s || yamlDateLike s

/-- Double the single quotes inside a single-quoted scalar body. -/
def yamlEscapeSingle : List Char → List Char
  | [] => []
  | c :: rest =>
    if c = '\'' then '\'' :: '\'' :: yamlEscapeSingle rest
    else c :: yamlEscapeSingle rest

/-- A scalar as js-yaml writes it: plain, or single-quoted with doubled
inner quotes. -/
def yamlScalar (s : String) : String :=
  if yamlNeedsQuote s then "'" ++ String.mk (yamlEscapeSingle s.data) ++ "'" else s

/-- One `key: value` line per field, each newline-terminated, keys and
values written as YAML scalars. -/
def kvLines : List (String × String) → String
  | [] => ""
  | kv :: rest => yamlScalar kv.1 ++ ": " ++ yamlScalar kv.2 ++ "\n" ++ kvLines rest

/-- Models gray-matter's `matter.stringify('', data)` for a non-empty record
of single-line scalars: `newline(open) + newline(yaml) + newline(close)`
yields the fenced block with every line newline-terminated, and the final
`newline(content)` applied to the empty content appends one more newline, so
the output ends with the closing fence line followed by a blank line. -/
def matterStringify (data : List (String × String)) : String :=
  "---\n" ++ kvLines data ++ "---\n" ++ "\n"

/-- The object spread `{ ...defaults, ...frontMatter }`: default keys keep
their position but take the caller's value on collision; remaining caller
keys are appended.  (`frontMatter` is a JavaScript record, so its keys are
unique and `List.lookup` finds the value.) -/
def spreadMerge (defaults extra : List (String × String)) : List (String × String) :=
  (defaults.map fun kv => (kv.1, (extra.lookup kv.1).getD kv.2)) ++
    extra.filter (fun kv => !(defaults.any (fun d => d.1 == kv.1)))

/-- The `defaultFrontMatter` object literal built in `convertToMDX`. -/
def defaultFrontMatter (page : NotionPage) : List (String × String) :=
  [("title", page.title), ("publishedAt", isoDatePart page.lastEditedTime),
   ("summary", summaryOf page.content)]

/-- `NotionService.convertToMDX`: front-matter string, then `"\n\n"`, then
the body verbatim. -/
def convertToMDX (page : NotionPage) (frontMatter : List (String × String)) : String :=
  matterStringify (spreadMerge (defaultFrontMatter page) frontMatter) ++ "\n\n" ++ page.content

/-! ## A front-matter parser (spec side)

The spec's round-trip property talks about "parsing the header back out".
The parser below reads the `---` fenced block, splits each line at its
first `": "`, and reads each value back out of its YAML scalar form
(stripping one layer of single quotes and un-doubling inner quotes).
-/

def splitLinesAux : List Char → List Char → List String
  | [], acc => [String.mk acc.reverse]
  | c :: cs, acc =>
    if c = '\n' then String.mk acc.reverse :: splitLinesAux cs []
    else splitLinesAux cs (c :: acc)

/-- Split a string into its newline-separated lines. -/
def splitLines (s : String) : List String :=
  splitLinesAux s.data []

def splitKVAux : List Char → List Char → Option (String × String)
  | [], _ => none
  | [_], _ => none
  | c :: d :: rest, acc =>
    if c = ':' ∧ d = ' ' then some (String.mk acc.reverse, String.mk rest)
    else splitKVAux (d :: rest) (c :: acc)

/-- Halve the doubled quotes of a single-quoted scalar body. -/
def yamlUnescapeSingle : List Char → List Char
  | [] => []
  | [c] => [c]
  | c :: d :: rest =>
    if c = '\'' ∧ d = '\'' then '\'' :: yamlUnescapeSingle rest
    else c :: yamlUnescapeSingle (d :: rest)

/-- Strip one layer of single quotes (and unescape the body) when the text
is a single-quoted scalar; plain text is returned unchanged. -/
def unquoteChars : List Char → List Char
  | [] => []
  | c :: rest =>
    if c = '\'' ∧ rest.getLast? = some '\'' ∧ rest ≠ [] then
      yamlUnescapeSingle rest.dropLast
    else c :: rest

def unquoteValue (s : String) : String :=
  String.mk (unquoteChars s.data)

/-- Parse the lines of the fenced header up to the closing fence, reading
each value back out of its YAML scalar form. -/
def parseHeaderLines : List String → Option (List (String × String))
  | [] => none
  | l :: ls =>
    if l = "---" then some []
    else
      match splitKVAux l.data [] with
      | some kv =>
        match parseHeaderLines ls with
        | some tl => some ((kv.1, unquoteValue kv.2) :: tl)
        | none => none
      | none => none

/-- Parse the key-value header block back out of a rendered document. -/
def parseFrontMatter (doc : String) : Option (List (String × String)) :=
  match splitLines doc with
  | first :: rest => if first = "---" then parseHeaderLines rest else none
  | [] => none

/-! ### Lemmas: line splitting and header parsing invert serialization -/

theorem splitLinesAux_append_nl (l : List Char) (rest acc : List Char)
    (h : '\n' ∉ l) :
    splitLinesAux (l ++ '\n' :: rest) acc =
      String.mk (acc.reverse ++ l) :: splitLinesAux rest [] := by
  induction l generalizing acc with
  | nil =>
    simp [splitLinesAux]
  | cons c cs ih =>
    have hc : c ≠ '\n' := fun hh => h (by rw [hh]; exact List.mem_cons_self _ _)
    have htail : '\n' ∉ cs := fun hm => h (List.mem_cons_of_mem _ hm)
    simp only [List.cons_append, splitLinesAux, if_neg hc, List.append_eq]
    rw [ih _ htail]
    simp

theorem splitKVAux_spec (k : List Char) (v acc : List Char)
    (h : ':' ∉ k) :
    splitKVAux (k ++ ':' :: ' ' :: v) acc =
      some (String.mk (acc.reverse ++ k), String.mk v) := by
  induction k generalizing acc with
  | nil =>
    simp [splitKVAux]
  | cons c cs ih =>
    have hc : c ≠ ':' := fun hh => h (by rw [hh]; exact List.mem_cons_self _ _)
    have htail : ':' ∉ cs := fun hm => h (List.mem_cons_of_mem _ hm)
    cases hx : cs ++ ':' :: ' ' :: v with
    | nil => exact absurd hx (by simp)
    | cons d rest =>
      simp only [List.cons_append, hx, splitKVAux]
      rw [if_neg (fun hh => hc hh.1)]
      rw [← hx, ih _ htail]
      simp

theorem kv_line_ne_fence (k v : String) :
    k ++ ": " ++ v ≠ "---" := by
  intro h
  have hdata : (k ++ ": " ++ v).data = k.data ++ ':' :: ' ' :: v.data := by
    show (k.data ++ [':', ' ']) ++ v.data = k.data ++ ':' :: ' ' :: v.data
    simp
  have hmem : ':' ∈ (k ++ ": " ++ v).data := by
    rw [hdata]
    simp
  rw [h] at hmem
  simp at hmem

theorem yamlEscapeSingle_eq_nil {l : List Char} (h : yamlEscapeSingle l = []) :
    l = [] := by
  cases l with
  | nil => rfl
  | cons c r =>
    simp only [yamlEscapeSingle] at h
    by_cases hq : c = '\''
    · rw [if_pos hq] at h
      exact absurd h (by simp)
    · rw [if_neg hq] at h
      exact absurd h (by simp)

theorem yamlUnescape_escape (l : List Char) :
    yamlUnescapeSingle (yamlEscapeSingle l) = l := by
  induction l with
  | nil => rfl
  | cons c r ih =>
    by_cases hq : c = '\''
    · subst hq
      have hstep : yamlUnescapeSingle ('\'' :: '\'' :: yamlEscapeSingle r) =
          '\'' :: yamlUnescapeSingle (yamlEscapeSingle r) := by
        simp only [yamlUnescapeSingle]
        rw [if_pos (by simp)]
      simp only [yamlEscapeSingle, eq_self_iff_true, if_true]
      rw [hstep, ih]
    · have hstep : ∀ X : List Char,
          yamlUnescapeSingle (c :: X) = c :: yamlUnescapeSingle X := by
        intro X
        cases X with
        | nil => rfl
        | cons d tail =>
          simp only [yamlUnescapeSingle]
          rw [if_neg (fun hh => hq hh.1)]
      simp only [yamlEscapeSingle]
      rw [if_neg hq, hstep, ih]

theorem mem_yamlEscapeSingle {c : Char} {l : List Char}
    (h : c ∈ yamlEscapeSingle l) : c = '\'' ∨ c ∈ l := by
  induction l with
  | nil => simp [yamlEscapeSingle] at h
  | cons a r ih =>
    simp only [yamlEscapeSingle] at h
    by_cases hq : a = '\''
    · rw [if_pos hq] at h
      simp only [List.mem_cons] at h
      rcases h with rfl | rfl | h
      · exact Or.inl rfl
      · exact Or.inl rfl
      · rcases ih h with h1 | h2
        · exact Or.inl h1
        · exact Or.inr (List.mem_cons_of_mem _ h2)
    · rw [if_neg hq] at h
      simp only [List.mem_cons] at h
      rcases h with rfl | h
      · exact Or.inr (List.mem_cons_self _ _)
      · rcases ih h with h1 | h2
        · exact Or.inl h1
        · exact Or.inr (List.mem_cons_of_mem _ h2)

theorem yamlScalar_no_newline {s : String} (h : '\n' ∉ s.data) :
    '\n' ∉ (yamlScalar s).data := by
  unfold yamlScalar
  by_cases hq : yamlNeedsQuote s = true
  · rw [if_pos hq]
    intro hmem
    have hd : ("'" ++ String.mk (yamlEscapeSingle s.data) ++ "'").data =
        '\'' :: (yamlEscapeSingle s.data ++ ['\'']) := rfl
    rw [hd] at hmem
    simp only [List.mem_cons, List.mem_append, List.mem_singleton] at hmem
    rcases hmem with h1 | h2 | h3
    · exact absurd h1 (by decide)
    · rcases mem_yamlEscapeSingle h2 with hq2 | hin
      · exact absurd hq2 (by decide)
      · exact h hin
    · exact absurd h3 (by decide)
  · rw [if_neg hq]
    exact h

theorem yamlPlain_facts {s : String} (h : yamlNeedsQuote s = false) :
    s.data ≠ [] ∧ (∀ c ∈ s.data, yamlPlainSafe c = true) ∧
      (∀ c rest, s.data = c :: rest → yamlPlainSafeFirst c = true) := by
  unfold yamlNeedsQuote at h
  have hfirst : yamlPlainSafeFirst (s.data.headD ' ') = true := by
    by_contra hc
    have hc' : yamlPlainSafeFirst (s.data.headD ' ') = false := by simpa using hc
    rw [hc'] at h
    simp at h
  have hall : s.data.all yamlPlainSafe = true := by
    by_contra hc
    have hc' : s.data.all yamlPlainSafe = false := by simpa using hc
    rw [hc'] at h
    simp at h
  have hall2 : ∀ c ∈ s.data, yamlPlainSafe c = true := by
    intro c hc
    exact List.all_eq_true.mp hall c hc
  refine ⟨?_, hall2, ?_⟩
  · intro hnil
    rw [hnil] at hfirst
    exact absurd hfirst (by decide)
  · intro c rest hs
    rw [hs] at hfirst
    exact hfirst

theorem yamlScalar_plain {s : String} (h : yamlNeedsQuote s = false) :
    yamlScalar s = s := by
  unfold yamlScalar
  rw [h]
  rfl

theorem yaml_roundtrip_value (v : String) : unquoteValue (yamlScalar v) = v := by
  by_cases hq : yamlNeedsQuote v = true
  · unfold yamlScalar
    rw [if_pos hq]
    unfold unquoteValue
    have hd : ("'" ++ String.mk (yamlEscapeSingle v.data) ++ "'").data =
        '\'' :: (yamlEscapeSingle v.data ++ ['\'']) := rfl
    rw [hd]
    simp only [unquoteChars]
    rw [if_pos (by simp [List.getLast?_concat])]
    rw [List.dropLast_concat, yamlUnescape_escape]
  · have hq2 : yamlNeedsQuote v = false := by
      simpa using hq
    rw [yamlScalar_plain hq2]
    obtain ⟨hne, -, hhead⟩ := yamlPlain_facts hq2
    unfold unquoteValue
    cases hs : v.data with
    | nil => exact absurd hs hne
    | cons c rest =>
      simp only [unquoteChars]
      rw [if_neg]
      · exact String.ext hs.symm
      · intro hcontra
        have hc := hhead c rest hs
        rw [hcontra.1] at hc
        exact absurd hc (by decide)

theorem parseHeaderLines_roundtrip (kvs : List (String × String)) (junk : List String)
    (hk : ∀ kv ∈ kvs, yamlNeedsQuote (Prod.fst kv) = false) :
    parseHeaderLines ((kvs.map fun kv => yamlScalar kv.1 ++ ": " ++ yamlScalar kv.2)
        ++ "---" :: junk) = some kvs := by
  induction kvs with
  | nil =>
    simp [parseHeaderLines]
  | cons kv rest ih =>
    have hk1 : yamlNeedsQuote kv.1 = false := hk kv (by simp)
    have hkey : ':' ∉ kv.1.data := by
      obtain ⟨-, hall, -⟩ := yamlPlain_facts hk1
      intro hmem
      have := hall ':' hmem
      exact absurd this (by decide)
    have hkeyS : yamlScalar kv.1 = kv.1 := yamlScalar_plain hk1
    have hline : (yamlScalar kv.1 ++ ": " ++ yamlScalar kv.2) ≠ "---" := by
      rw [hkeyS]
      exact kv_line_ne_fence kv.1 (yamlScalar kv.2)
    simp only [List.map_cons, List.cons_append, parseHeaderLines, if_neg hline]
    have hdata : (yamlScalar kv.1 ++ ": " ++ yamlScalar kv.2).data =
        kv.1.data ++ ':' :: ' ' :: (yamlScalar kv.2).data := by
      rw [hkeyS]
      show (kv.1.data ++ [':', ' ']) ++ (yamlScalar kv.2).data =
        kv.1.data ++ ':' :: ' ' :: (yamlScalar kv.2).data
      simp
    rw [hdata, splitKVAux_spec kv.1.data (yamlScalar kv.2).data [] hkey]
    have ihh := ih (fun x hx => hk x (List.mem_cons_of_mem _ hx))
    simp only [List.append_eq] at ihh ⊢
    rw [ihh]
    have hmk1 : String.mk (([] : List Char).reverse ++ kv.1.data) = kv.1 := by
      apply String.ext
      simp
    have hmk2 : String.mk ((yamlScalar kv.2).data) = yamlScalar kv.2 := rfl
    simp only [hmk1, hmk2]
    rw [yaml_roundtrip_value]

theorem splitLines_kvLines (kvs : List (String × String)) (rest : List Char)
    (h : ∀ kv ∈ kvs, '\n' ∉ (yamlScalar (Prod.fst kv)).data ∧
      '\n' ∉ (yamlScalar (Prod.snd kv)).data) :
    splitLinesAux ((kvLines kvs).data ++ rest) [] =
      (kvs.map fun kv => yamlScalar kv.1 ++ ": " ++ yamlScalar kv.2) ++
        splitLinesAux rest [] := by
  induction kvs with
  | nil => simp [kvLines]
  | cons kv r ih =>
    have hkey := (h kv (by simp)).1
    have hval := (h kv (by simp)).2
    have hline : '\n' ∉ (yamlScalar kv.1 ++ ": " ++ yamlScalar kv.2).data := by
      have hdata : (yamlScalar kv.1 ++ ": " ++ yamlScalar kv.2).data =
          (yamlScalar kv.1).data ++ ':' :: ' ' :: (yamlScalar kv.2).data := by
        show ((yamlScalar kv.1).data ++ [':', ' ']) ++ (yamlScalar kv.2).data =
          (yamlScalar kv.1).data ++ ':' :: ' ' :: (yamlScalar kv.2).data
        simp
      rw [hdata]
      intro hmem
      simp only [List.mem_append, List.mem_cons] at hmem
      rcases hmem with h1 | h2 | h3 | h4
      · exact hkey h1
      · exact absurd h2 (by decide)
      · exact absurd h3 (by decide)
      · exact hval h4
    have hshape : (kvLines (kv :: r)).data ++ rest =
        (yamlScalar kv.1 ++ ": " ++ yamlScalar kv.2).data ++
          '\n' :: ((kvLines r).data ++ rest) := by
      show ((((yamlScalar kv.1 ++ ": ") ++ yamlScalar kv.2).data ++ ['\n']) ++
          (kvLines r).data) ++ rest =
        ((yamlScalar kv.1 ++ ": ") ++ yamlScalar kv.2).data ++
          '\n' :: ((kvLines r).data ++ rest)
      simp
    rw [hshape, splitLinesAux_append_nl _ _ _ hline,
        ih (fun x hx => h x (List.mem_cons_of_mem _ hx))]
    simp
    apply String.ext
    simp

theorem spreadMerge_nil (d : List (String × String)) : spreadMerge d [] = d := by
  simp [spreadMerge]

theorem str_data_append (s t : String) : (s ++ t).data = s.data ++ t.data := rfl

theorem splitLinesAux_cons_nl (rest acc : List Char) :
    splitLinesAux ('\n' :: rest) acc = String.mk acc.reverse :: splitLinesAux rest [] := by
  simp [splitLinesAux]

/-- The line structure of a rendered document: opening fence, one scalar
line per front-matter field, closing fence, then the three empty lines
produced by the trailing newline of the front-matter string plus the
`"\n\n"` separator, then the lines of the body. -/
theorem splitLines_convertToMDX (page : NotionPage)
    (hT : '\n' ∉ page.title.data)
    (hD : '\n' ∉ (isoDatePart page.lastEditedTime).data)
    (hS : '\n' ∉ (summaryOf page.content).data) :
    splitLines (convertToMDX page []) =
      "---" :: (((defaultFrontMatter page).map fun kv =>
          yamlScalar kv.1 ++ ": " ++ yamlScalar kv.2) ++
        "---" :: "" :: "" :: "" :: splitLinesAux page.content.data []) := by
  have hkv : ∀ kv ∈ defaultFrontMatter page,
      '\n' ∉ (yamlScalar (Prod.fst kv)).data ∧
        '\n' ∉ (yamlScalar (Prod.snd kv)).data := by
    intro kv hkv
    simp only [defaultFrontMatter, List.mem_cons, List.not_mem_nil, or_false] at hkv
    rcases hkv with rfl | rfl | rfl
    · exact ⟨(by decide : '\n' ∉ (yamlScalar "title").data), yamlScalar_no_newline hT⟩
    · exact ⟨(by decide : '\n' ∉ (yamlScalar "publishedAt").data),
        yamlScalar_no_newline hD⟩
    · exact ⟨(by decide : '\n' ∉ (yamlScalar "summary").data), yamlScalar_no_newline hS⟩
  have e1 : (convertToMDX page []).data =
      ['-', '-', '-'] ++ '\n' :: ((kvLines (defaultFrontMatter page)).data ++
        (['-', '-', '-'] ++ '\n' :: ('\n' :: ('\n' :: ('\n' :: page.content.data))))) := by
    simp only [convertToMDX, matterStringify, spreadMerge_nil, str_data_append]
    simp
  unfold splitLines
  rw [e1, splitLinesAux_append_nl _ _ _ (by decide),
      splitLines_kvLines _ _ hkv,
      splitLinesAux_append_nl _ _ _ (by decide),
      splitLinesAux_cons_nl, splitLinesAux_cons_nl, splitLinesAux_cons_nl]
  simp

/-- C4 (counterexample): the claim says the serialized header is followed by
ONE blank line and then the body.  In fact the front-matter string ends with
a newline-terminated closing fence plus one more newline (gray-matter
newline-normalizes the empty content) and the code appends a further
`"\n\n"`, so THREE blank lines separate the closing fence from the body;
moreover the YAML engine single-quotes the comma-carrying title and the
date-shaped `publishedAt`. -/
theorem convertToMDX_blankline_cex :
    splitLines (convertToMDX
        { id := "page-1", title := "Hello, World!", content := "Intro paragraph text.",
          properties := [], lastEditedTime := "2024-03-05T10:00:00.000Z", url := "" } []) =
      ["---", "title: 'Hello, World!'", "publishedAt: '2024-03-05'",
       "summary: Intro paragraph text.", "---", "", "", "", "Intro paragraph text."] ∧
      ¬ splitLines (convertToMDX
        { id := "page-1", title := "Hello, World!", content := "Intro paragraph text.",
          properties := [], lastEditedTime := "2024-03-05T10:00:00.000Z", url := "" } []) =
      ["---", "title: 'Hello, World!'", "publishedAt: '2024-03-05'",
       "summary: Intro paragraph text.", "---", "", "Intro paragraph text."] := by
  constructor
  · decide
  · decide

/-- C4 (amended): `convertToMDX` builds a header whose `title` is the page's
title, whose `publishedAt` is the date part of the last-modified timestamp,
and whose `summary` follows the first-paragraph/150-character/placeholder
rule; caller metadata overrides the defaults on key collision; the output is
the serialized header (its values in YAML scalar form, so the date-shaped
`publishedAt` is single-quoted, and ending with a blank line after the
closing fence) followed by the `"\n\n"` separator — hence THREE blank
lines before the body, not one — and then the body verbatim; parsing the
header back out of its scalar form recovers exactly the default fields. -/
theorem convertToMDX_amended (page : NotionPage)
    (hT : '\n' ∉ page.title.data)
    (hD : '\n' ∉ (isoDatePart page.lastEditedTime).data)
    (hS : '\n' ∉ (summaryOf page.content).data) :
    parseFrontMatter (convertToMDX page []) = some (defaultFrontMatter page) ∧
      convertToMDX page [] =
        matterStringify (defaultFrontMatter page) ++ "\n\n" ++ page.content ∧
      (page.content = "" → summaryOf page.content = "No summary available") ∧
      (150 < (firstParagraph page.content).data.length →
        summaryOf page.content =
          String.mk ((firstParagraph page.content).data.take 150) ++ "...") ∧
      (∀ extra v, extra.lookup "title" = some v →
        (spreadMerge (defaultFrontMatter page) extra).lookup "title" = some v) ∧
      (∀ extra v, extra.lookup "publishedAt" = some v →
        (spreadMerge (defaultFrontMatter page) extra).lookup "publishedAt" = some v) ∧
      (∀ extra v, extra.lookup "summary" = some v →
        (spreadMerge (defaultFrontMatter page) extra).lookup "summary" = some v) := by
  refine ⟨?_, ?_, ?_, ?_, ?_, ?_, ?_⟩
  · have hsl := splitLines_convertToMDX page hT hD hS
    have hkeys : ∀ kv ∈ defaultFrontMatter page,
        yamlNeedsQuote (Prod.fst kv) = false := by
      intro kv hkv
      simp only [defaultFrontMatter, List.mem_cons, List.not_mem_nil, or_false] at hkv
      rcases hkv with rfl | rfl | rfl
      · exact (by decide : yamlNeedsQuote "title" = false)
      · exact (by decide : yamlNeedsQuote "publishedAt" = false)
      · exact (by decide : yamlNeedsQuote "summary" = false)
    simp only [parseFrontMatter, hsl, if_pos rfl]
    apply parseHeaderLines_roundtrip
    exact hkeys
  · simp only [convertToMDX, spreadMerge_nil]
  · intro h
    rw [h]
    rfl
  · intro h
    simp only [summaryOf, if_pos h]
  · intro extra v h
    simp [spreadMerge, defaultFrontMatter, h, List.lookup]
  · intro extra v h
    simp [spreadMerge, defaultFrontMatter, h, List.lookup]
  · intro extra v h
    simp [spreadMerge, defaultFrontMatter, h, List.lookup]

/-- Witness for C4's amended theorem at the spec's own scenario page. -/
theorem convertToMDX_amended_witness :
    parseFrontMatter (convertToMDX
        { id := "page-1", title := "Hello, World!", content := "Intro paragraph text.",
          properties := [], lastEditedTime := "2024-03-05T10:00:00.000Z", url := "" } []) =
      some [("title", "Hello, World!"), ("publishedAt", "2024-03-05"),
            ("summary", "Intro paragraph text.")] := by
  have h := (convertToMDX_amended
    { id := "page-1", title := "Hello, World!", content := "Intro paragraph text.",
      properties := [], lastEditedTime := "2024-03-05T10:00:00.000Z", url := "" }
    (by decide) (by decide) (by decide)).1
  rw [h]
  decide

/-! ## GitHub service: batch push (`GitHubService.pushFiles`)

The hosting service is modelled as an explicit object store plus a branch
ref, and a `StepOracle` of booleans deciding which of the four API calls
succeed (each failure raises in the source; the surrounding `try` rethrows
`'Failed to push files to GitHub'`).  Newly created objects get fresh
ids from a counter.
-/

/-- `GitHubFile` from `types.ts`. -/
structure GitHubFile where
  path : String
  content : String
  message : String
deriving DecidableEq

structure TreeObj where
  sha : Nat
  base : Nat
  entries : List (String × String)
deriving DecidableEq

structure CommitObj where
  sha : Nat
  tree : Nat
  parents : List Nat
  message : String
deriving DecidableEq

/-- The hosting service's state: the branch ref (the only mutable pointer),
a fresh-id counter, and the created tree and commit objects. -/
structure GitState where
  refSha : Nat
  nextSha : Nat
  trees : List TreeObj
  commits : List CommitObj
deriving DecidableEq

/-- Which API steps succeed, and the `new Date().toISOString()` value used
in the commit message. -/
structure StepOracle where
  getRefOk : Bool
  createTreeOk : Bool
  createCommitOk : Bool
  updateRefOk : Bool
  nowIso : String

/-- `octokit.git.getRef`: read the commit sha the branch points to. -/
def getRefApi (o : StepOracle) (s : GitState) : Except String Nat :=
  if o.getRefOk then Except.ok s.refSha else Except.error "getRef failed"

/-- `GitHubService.createTree`: one tree holding every file's
`(path, content)` pair, layered on `base_tree`. -/
def createTreeApi (o : StepOracle) (s : GitState) (files : List GitHubFile)
    (baseTreeSha : Nat) : Except String (Nat × GitState) :=
  if o.createTreeOk then
    let newTree : TreeObj :=
      { sha := s.nextSha, base := baseTreeSha,
        entries := files.map (fun f => (f.path, f.content)) }
    Except.ok (s.nextSha,
      { s with nextSha := s.nextSha + 1, trees := s.trees ++ [newTree] })
  else Except.error "createTree failed"

/-- `octokit.git.createCommit`. -/
def createCommitApi (o : StepOracle) (s : GitState) (message : String)
    (tree : Nat) (parents : List Nat) : Except String (Nat × GitState) :=
  if o.createCommitOk then
    let newCommit : CommitObj :=
      { sha := s.nextSha, tree := tree, parents := parents, message := message }
    Except.ok (s.nextSha,
      { s with nextSha := s.nextSha + 1, commits := s.commits ++ [newCommit] })
  else Except.error "createCommit failed"

/-- `octokit.git.updateRef`: advance the branch ref. -/
def updateRefApi (o : StepOracle) (s : GitState) (sha : Nat) :
    Except String GitState :=
  if o.updateRefOk then Except.ok { s with refSha := sha }
  else Except.error "updateRef failed"

/-- `GitHubService.pushFiles`: get ref, create tree on the base, create a
commit whose sole parent is the base, update the ref — any failure is caught
and rethrown as `'Failed to push files to GitHub'`, leaving the state as it
was at the failed step. -/
def pushFiles (o : StepOracle) (s : GitState) (files : List GitHubFile) :
    GitState × Except String Unit :=
  match getRefApi o s with
  | Except.error _ => (s, Except.error "Failed to push files to GitHub")
  | Except.ok baseTreeSha =>
    match createTreeApi o s files baseTreeSha with
    | Except.error _ => (s, Except.error "Failed to push files to GitHub")
    | Except.ok (treeSha, s1) =>
      match createCommitApi o s1 ("Update MDX files from Notion - " ++ o.nowIso)
          treeSha [baseTreeSha] with
      | Except.error _ => (s1, Except.error "Failed to push files to GitHub")
      | Except.ok (commitSha, s2) =>
        match updateRefApi o s2 commitSha with
        | Except.error _ => (s2, Except.error "Failed to push files to GitHub")
        | Except.ok s3 => (s3, Except.ok ())

/-! ### Claim C1 -/

/-- C1: if any step of `pushFiles` fails, the branch ref is left exactly as
it was found; on success exactly one tree and one commit are created — the
tree layered on the base and holding every input file, the commit's sole
parent the base commit read from the ref — and the ref is advanced to that
commit. -/
theorem pushFiles_atomic (o : StepOracle) (s : GitState) (files : List GitHubFile) :
    (∀ e, (pushFiles o s files).2 = Except.error e →
        (pushFiles o s files).1.refSha = s.refSha) ∧
      ((pushFiles o s files).2 = Except.ok () →
        ∃ t c, (pushFiles o s files).1.trees = s.trees ++ [t] ∧
          (pushFiles o s files).1.commits = s.commits ++ [c] ∧
          t.base = s.refSha ∧
          t.entries = files.map (fun f => (f.path, f.content)) ∧
          c.tree = t.sha ∧ c.parents = [s.refSha] ∧
          (pushFiles o s files).1.refSha = c.sha) := by
  obtain ⟨g, t, c, u, now⟩ := o
  cases g <;> cases t <;> cases c <;> cases u <;>
    simp [pushFiles, getRefApi, createTreeApi, createCommitApi, updateRefApi]

/-- Oracle with every API step succeeding. -/
def oAllOk : StepOracle :=
  { getRefOk := true, createTreeOk := true, createCommitOk := true,
    updateRefOk := true, nowIso := "2024-03-05T10:00:00.000Z" }

/-- Oracle failing at the create-commit step. -/
def oCommitFails : StepOracle :=
  { getRefOk := true, createTreeOk := true, createCommitOk := false,
    updateRefOk := true, nowIso := "2024-03-05T10:00:00.000Z" }

/-- A small initial hosting-service state. -/
def gsInit : GitState :=
  { refSha := 7, nextSha := 100, trees := [], commits := [] }

def fileA : GitHubFile :=
  { path := "content/posts/hello-world.mdx", content := "x", message := "m" }

def fileB : GitHubFile :=
  { path := "content/posts/other.mdx", content := "y", message := "m2" }

/-- Witness for C1: with the create-commit step failing the ref is unchanged;
with every step succeeding the single created commit covers both input files
and the ref moves to it. -/
theorem pushFiles_atomic_witness :
    (pushFiles oCommitFails gsInit [fileA]).1.refSha = gsInit.refSha ∧
      ∃ t c, (pushFiles oAllOk gsInit [fileA, fileB]).1.trees = gsInit.trees ++ [t] ∧
        (pushFiles oAllOk gsInit [fileA, fileB]).1.commits = gsInit.commits ++ [c] ∧
        t.base = gsInit.refSha ∧
        t.entries = [fileA, fileB].map (fun f => (f.path, f.content)) ∧
        c.tree = t.sha ∧ c.parents = [gsInit.refSha] ∧
        (pushFiles oAllOk gsInit [fileA, fileB]).1.refSha = c.sha := by
  constructor
  · exact (pushFiles_atomic oCommitFails gsInit [fileA]).1 "Failed to push files to GitHub" rfl
  · exact (pushFiles_atomic oAllOk gsInit [fileA, fileB]).2 rfl

/-! ## GitHub service: single-file writer (`GitHubService.createOrUpdateFile`)

`repos.getContent` is modelled over a store of files keyed by path: a
missing path is the 404 case (`null` from `getFileContent`), and a boolean
oracle simulates every other lookup failure (network faults etc.), which
`getFileContent` rethrows.  The base64 transport encoding is invertible and
therefore modelled as the identity on content.
-/

structure RepoFile where
  content : String
  sha : String
deriving DecidableEq

structure RepoState where
  files : List (String × RepoFile)
deriving DecidableEq

/-- The write request issued by `repos.createOrUpdateFileContents`: `sha` is
present exactly when the source passed that field. -/
structure WriteRequest where
  path : String
  content : String
  message : String
  sha : Option String
  branch : String
deriving DecidableEq

/-- `GitHubService.getFileContent`: decoded content for an existing file,
`none` for a 404, any other lookup failure propagates. -/
def getFileContent (lookupOk : Bool) (st : RepoState) (path : String) :
    Except String (Option String) :=
  if lookupOk then Except.ok ((st.files.lookup path).map (fun f => f.content))
  else Except.error "network fault"

/-- `GitHubService.getFileSha`: second lookup; a 404 here is uncaught and
propagates (the source throws). -/
def getFileSha (lookupOk : Bool) (st : RepoState) (path : String) :
    Except String String :=
  if lookupOk then
    match st.files.lookup path with
    | some f => Except.ok f.sha
    | none => Except.error "Could not get file SHA"
  else Except.error "network fault"

/-- JavaScript truthiness of `existingFile : string | null`: `null` and the
empty string are falsy. -/
def truthyStr : Option String → Bool
  | none => false
  | some s => !(s == "")

/-- `GitHubService.createOrUpdateFile`: look the file up, then write with
the current sha when `existingFile` is truthy and without it otherwise; any
raised error is caught and rethrown as `'Failed to create/update file'`. -/
def createOrUpdateFile (lookupOk : Bool) (st : RepoState)
    (branch path content message : String) : Except String WriteRequest :=
  match getFileContent lookupOk st path with
  | Except.error _ => Except.error ("Failed to create/update file: " ++ path)
  | Except.ok existingFile =>
    if truthyStr existingFile then
      match getFileSha lookupOk st path with
      | Except.error _ => Except.error ("Failed to create/update file: " ++ path)
      | Except.ok sha =>
        Except.ok { path := path, content := content, message := message,
                    sha := some sha, branch := branch }
    else
      Except.ok { path := path, content := content, message := message,
                  sha := none, branch := branch }

/-! ### Claim C8 -/

/-- A repository whose file at `content/a.mdx` exists with empty content. -/
def repoWithEmptyFile : RepoState :=
  { files := [("content/a.mdx", { content := "", sha := "sha-empty" })] }

/-- C8 (evaluation at the failing input): the file at `content/a.mdx` exists,
yet the write request omits its content-hash — JavaScript truthiness sends
the empty-content file down the create branch, contradicting the claim (and
the source's own `// Update existing file` intent): the hosting service
would reject this update for lack of a sha. -/
theorem createOrUpdateFile_empty_file_bug :
    repoWithEmptyFile.files.lookup "content/a.mdx" =
      some { content := "", sha := "sha-empty" } ∧
      createOrUpdateFile true repoWithEmptyFile "main" "content/a.mdx" "new body" "msg" =
        Except.ok { path := "content/a.mdx", content := "new body", message := "msg",
                    sha := none, branch := "main" } := by
  constructor
  · rfl
  · rfl

/-- The behavior of `createOrUpdateFile` as implemented: the sha is included
exactly when the file exists with non-empty content; a missing file and an
existing empty file both get a sha-less write; a non-404 lookup failure
propagates as an error. -/
theorem createOrUpdateFile_behavior (st : RepoState) (br p c m : String) :
    (∀ f, st.files.lookup p = some f → ¬ f.content = "" →
        createOrUpdateFile true st br p c m =
          Except.ok { path := p, content := c, message := m,
                      sha := some f.sha, branch := br }) ∧
      (st.files.lookup p = none →
        createOrUpdateFile true st br p c m =
          Except.ok { path := p, content := c, message := m,
                      sha := none, branch := br }) ∧
      (∀ f, st.files.lookup p = some f → f.content = "" →
        createOrUpdateFile true st br p c m =
          Except.ok { path := p, content := c, message := m,
                      sha := none, branch := br }) ∧
      (∃ e, createOrUpdateFile false st br p c m = Except.error e) := by
  refine ⟨?_, ?_, ?_, ?_⟩
  · intro f hf hne
    have hb : (f.content == "") = false := beq_eq_false_iff_ne.mpr hne
    simp [createOrUpdateFile, getFileContent, getFileSha, truthyStr, hf, hb]
  · intro hf
    simp [createOrUpdateFile, getFileContent, truthyStr, hf]
  · intro f hf he
    simp [createOrUpdateFile, getFileContent, truthyStr, hf, he]
  · exact ⟨"Failed to create/update file: " ++ p,
      by simp [createOrUpdateFile, getFileContent]⟩

/-- Witness for `createOrUpdateFile_behavior` at concrete stores. -/
theorem createOrUpdateFile_behavior_witness :
    createOrUpdateFile true
        { files := [("a.mdx", { content := "body", sha := "s1" })] }
        "main" "a.mdx" "c" "m" =
      Except.ok { path := "a.mdx", content := "c", message := "m",
                  sha := some "s1", branch := "main" } ∧
      createOrUpdateFile true { files := [] } "main" "b.mdx" "c" "m" =
        Except.ok { path := "b.mdx", content := "c", message := "m",
                    sha := none, branch := "main" } := by
  constructor
  · exact (createOrUpdateFile_behavior
      { files := [("a.mdx", { content := "body", sha := "s1" })] } "main" "a.mdx" "c" "m").1
      { content := "body", sha := "s1" } rfl (by decide)
  · exact (createOrUpdateFile_behavior { files := [] } "main" "b.mdx" "c" "m").2.1 rfl

/-! ## Orchestration (`NotionToGitHubConverter`)

The Notion collaborator is a `SourceOracle`: a flag for the database query,
a per-page block-fetch function (`Except` models the promise rejection that
`getPageContent` catches), and the `new Date().toISOString()` fallback for
a missing `last_edited_time`.
-/

/-- `ConversionConfig` from `types.ts`. -/
structure ConversionConfig where
  notionDatabaseId : String
  githubRepoOwner : String
  githubRepoName : String
  githubBranch : String
  outputPath : String
deriving DecidableEq

/-- `ConversionResult` from `types.ts` (optional fields are `Option`). -/
structure ConvResult where
  success : Bool
  message : String
  filesProcessed : Option Nat
  errors : Option (List String)
deriving DecidableEq

/-- A raw page as returned by the database query, before assembly. -/
structure RawPage where
  id : String
  properties : List (String × PropValue)
  last_edited_time : Option String
  url : Option String

structure NotionDb where
  pages : List RawPage

structure SourceOracle where
  queryOk : Bool
  blocksOf : String → Except Unit (List Block)
  nowIso : String

/-- `NotionService.getPageContent`: render the fetched blocks; a fetch
failure is caught and degrades to the empty string. -/
def getPageContent (src : SourceOracle) (pageId : String) : String :=
  match src.blocksOf pageId with
  | Except.ok blocks => convertBlocksToMarkdown blocks
  | Except.error _ => ""

/-- `NotionService.getPagesFromDatabase`: a query failure throws
`'Failed to fetch pages from Notion'`; otherwise every result becomes a
`NotionPage` with extracted title, rendered content and defaulted
timestamp/url. -/
def getPagesFromDatabase (src : SourceOracle) (db : NotionDb) :
    Except String (List NotionPage) :=
  if src.queryOk then
    Except.ok (db.pages.map (fun rp =>
      { id := rp.id, title := extractTitle rp.properties,
        content := getPageContent src rp.id, properties := rp.properties,
        lastEditedTime := rp.last_edited_time.getD src.nowIso,
        url := rp.url.getD "" }))
  else Except.error "Failed to fetch pages from Notion"

/-- The target path built in both sync modes:
`${this.config.outputPath}/${fileName}.mdx`. -/
def mdxFilePath (outputPath title : String) : String :=
  outputPath ++ "/" ++ generateFileName title ++ ".mdx"

/-- The `GitHubFile` pushed for one page in `convertAndPush`'s loop. -/
def pageToFile (cfg : ConversionConfig) (p : NotionPage) : GitHubFile :=
  { path := mdxFilePath cfg.outputPath p.title,
    content := convertToMDX p [],
    message := "Update " ++ p.title ++ " from Notion" }

/-- `NotionToGitHubConverter.convertAndPush`.  The per-page loop's
`try/catch` collects conversion errors, but `convertToMDX` and
`generateFileName` are total, so in the model the error list is always
empty and every page yields a file. -/
def convertAndPush (src : SourceOracle) (db : NotionDb) (git : StepOracle)
    (repoValid : Bool) (cfg : ConversionConfig) (gs : GitState) :
    ConvResult × GitState :=
  if !repoValid then
    ({ success := false, message := "Invalid GitHub repository configuration",
       filesProcessed := none,
       errors := some ["Repository not found or access denied"] }, gs)
  else
    match getPagesFromDatabase src db with
    | Except.error e =>
      ({ success := false, message := "Conversion process failed",
         filesProcessed := none, errors := some [e] }, gs)
    | Except.ok pages =>
      if pages.length = 0 then
        ({ success := false,
           message := "No pages found in the specified Notion database",
           filesProcessed := none,
           errors := some ["Database is empty or access denied"] }, gs)
      else
        let files := pages.map (pageToFile cfg)
        let errs : List String := []
        if files.length = 0 then
          ({ success := false, message := "No files were successfully converted",
             filesProcessed := none, errors := some errs }, gs)
        else
          match pushFiles git gs files with
          | (gs2, Except.error e) =>
            ({ success := false, message := "Conversion process failed",
               filesProcessed := none, errors := some [e] }, gs2)
          | (gs2, Except.ok _) =>
            ({ success := true,
               message := "Successfully converted and pushed " ++
                 toString files.length ++ " pages to GitHub",
               filesProcessed := some files.length,
               errors := if errs.length > 0 then some errs else none }, gs2)

/-- `NotionToGitHubConverter.convertSinglePage`: find the page in the
database listing, convert it and write it through the single-file path;
returns the issued write request alongside the result. -/
def convertSinglePage (src : SourceOracle) (db : NotionDb) (lookupOk : Bool)
    (repo : RepoState) (cfg : ConversionConfig) (pageId : String) :
    ConvResult × Option WriteRequest :=
  match getPagesFromDatabase src db with
  | Except.error e =>
    ({ success := false, message := "Single page conversion failed",
       filesProcessed := none, errors := some [e] }, none)
  | Except.ok pages =>
    match pages.find? (fun p => p.id == pageId) with
    | none =>
      ({ success := false, message := "Page not found", filesProcessed := none,
         errors := some ["Page with ID " ++ pageId ++ " not found in database"] }, none)
    | some targetPage =>
      match createOrUpdateFile lookupOk repo cfg.githubBranch
          (mdxFilePath cfg.outputPath targetPage.title) (convertToMDX targetPage [])
          ("Update " ++ targetPage.title ++ " from Notion") with
      | Except.error e =>
        ({ success := false, message := "Single page conversion failed",
           filesProcessed := none, errors := some [e] }, none)
      | Except.ok req =>
        ({ success := true,
           message := "Successfully converted and pushed \"" ++ targetPage.title ++
             "\" to GitHub",
           filesProcessed := some 1, errors := none }, some req)

/-! ### Claim C7: the 3-page scenario -/

/-- A raw page with one title property. -/
def rawPage (pid t : String) : RawPage :=
  { id := pid, properties := [("Name", PropValue.titleProp [t])],
    last_edited_time := some "2024-03-05T10:00:00.000Z", url := some "" }

/-- A database of three pages. -/
def db3 : NotionDb :=
  { pages := [rawPage "1" "Page One", rawPage "2" "Page Two", rawPage "3" "Page Three"] }

/-- A source where page 2's block fetch fails and the others return one
paragraph. -/
def src3 : SourceOracle :=
  { queryOk := true,
    blocksOf := fun pid =>
      if pid == "2" then Except.error ()
      else Except.ok [Block.paragraph [plainSpan "Intro paragraph text."]],
    nowIso := "2024-01-01T00:00:00.000Z" }

def cfg0 : ConversionConfig :=
  { notionDatabaseId := "db", githubRepoOwner := "o", githubRepoName := "r",
    githubBranch := "main", outputPath := "content/posts" }

/-- C7 (counterexample): in a full-database sync of 3 pages where page 2's
block fetch fails, the run does NOT report `filesProcessed: 2` with one
error — the fetch failure is swallowed inside `getPageContent` (which
returns an empty body), the page is still converted, and the result is
`filesProcessed: 3` with no error list at all. -/
theorem batch_fetch_failure_cex :
    (convertAndPush src3 db3 oAllOk true cfg0 gsInit).1.success = true ∧
      (convertAndPush src3 db3 oAllOk true cfg0 gsInit).1.filesProcessed = some 3 ∧
      (convertAndPush src3 db3 oAllOk true cfg0 gsInit).1.errors = none ∧
      ¬ (convertAndPush src3 db3 oAllOk true cfg0 gsInit).1.filesProcessed = some 2 := by
  refine ⟨rfl, rfl, rfl, by decide⟩

/-- C7 (amended): in that scenario the failed page is not skipped — its
content degrades to the empty string, all three pages are converted and
pushed, and the run reports `filesProcessed: 3`, no `errors` field and
`success: true`, with exactly one commit created. -/
theorem batch_degrades_amended :
    (convertAndPush src3 db3 oAllOk true cfg0 gsInit).1.success = true ∧
      (convertAndPush src3 db3 oAllOk true cfg0 gsInit).1.filesProcessed = some 3 ∧
      (convertAndPush src3 db3 oAllOk true cfg0 gsInit).1.errors = none ∧
      getPageContent src3 "2" = "" ∧
      getPageContent src3 "1" = "Intro paragraph text." ++ "\n\n" ∧
      ((convertAndPush src3 db3 oAllOk true cfg0 gsInit).2.commits).length =
        gsInit.commits.length + 1 := by
  refine ⟨rfl, rfl, rfl, rfl, rfl, rfl⟩

/-! ### Claim C10: degenerate titles -/

/-- C10 (counterexample): the title `" "` (a single space) has no character
in `[a-z0-9]` after lowercasing, yet `generateFileName` returns `"-"`, not
the empty string — the whitespace run becomes a hyphen that survives. -/
theorem degenerate_filename_cex :
    (∀ c ∈ (" " : String).data, isLowerAz (lowerChar c) = false ∧
        isDigit09 (lowerChar c) = false) ∧
      generateFileName " " = "-" ∧ ¬ generateFileName " " = "" := by
  refine ⟨by decide, by decide, by decide⟩

/-- C10 (amended): for every title all of whose characters are stripped by
the derivation (no `[a-z0-9]`, no whitespace and no hyphen after
lowercasing — e.g. a punctuation-only title), `generateFileName` returns the
empty string and both sync modes target `<outputPath>/.mdx`: the batch loop
pushes the page's file at that path with no error recorded. -/
theorem degenerate_filename_amended (op t : String)
    (h : ∀ c ∈ t.data, keepChar (lowerChar c) = false) :
    generateFileName t = "" ∧
      mdxFilePath op t = op ++ "/" ++ "" ++ ".mdx" ∧
      (∀ (cfg : ConversionConfig) (p : NotionPage), p.title = t →
        (pageToFile cfg p).path = cfg.outputPath ++ "/" ++ "" ++ ".mdx") := by
  have hgen : generateFileName t = "" := by
    unfold generateFileName slugChars
    have hfilter : stripSpecial (t.data.map lowerChar) = [] := by
      unfold stripSpecial
      rw [List.filter_eq_nil_iff]
      intro c hc
      rcases List.mem_map.mp hc with ⟨a, ha, rfl⟩
      simp [h a ha]
    rw [hfilter]
    rfl
  refine ⟨hgen, ?_, ?_⟩
  · unfold mdxFilePath
    rw [hgen]
  · intro cfg p hp
    simp only [pageToFile, mdxFilePath, hp, hgen]

/-- Witness for C10's amended theorem at the punctuation-only title `"!!!"`. -/
theorem degenerate_filename_amended_witness :
    generateFileName "!!!" = "" ∧
      mdxFilePath "content/posts" "!!!" = "content/posts" ++ "/" ++ "" ++ ".mdx" := by
  have h := degenerate_filename_amended "content/posts" "!!!" (by decide)
  exact ⟨h.1, h.2.1⟩
